import Mathlib

/-!
cache2go: registry (cache.go) and cache items (cacheitem.go)

A shallow embedding of the two source files of the library.

* Mutable Go objects are embedded as values with explicit state passing:
  a method with a pointer receiver becomes a function returning the
  updated item.
* `time.Now()` is an explicit argument: the clock reading taken by the call.
* `time.Time` and `time.Duration` are integers (nanoseconds).
* `int64` is an integer kept in range by `wrapInt64` (two's complement).
* `interface{}` keys and data, and Go function values, are type parameters:
  the code never inspects them.
* The mutexes are not part of the sequential embedding: each function below
  is what one call does when it runs alone.
-/

namespace Cache2go

/-! ## Machine integers and time -/

/-- Smallest `int64`. -/
def minInt64 : Int := -9223372036854775808

/-- Largest `int64`. -/
def maxInt64 : Int := 9223372036854775807

/-- Two's complement reduction of an integer to the `int64` range. -/
def wrapInt64 (x : Int) : Int :=
  (x + 9223372036854775808) % 18446744073709551616 - 9223372036854775808

/-- Go `time.Time`: an instant, in nanoseconds. -/
abbrev Time := Int

/-- Go `time.Duration`: a signed count of nanoseconds. -/
abbrev Duration := Int

/-! ## cacheitem.go -/

/-- The struct `CacheItem`. `K` and `D` stand for the `interface{}` key and
data, `F` for the handler type `func(key interface{})`. A nil slice is the
empty list. -/
structure CacheItem (K D F : Type) where
  key : K
  data : D
  lifeSpan : Duration
  createdOn : Time
  accessedOn : Time
  accessCount : Int
  aboutToExpire : List F

variable {K D F G : Type}

/-- `NewCacheItem(key, lifeSpan, data)`, with `now` the value of `time.Now()`. -/
def NewCacheItem (key : K) (lifeSpan : Duration) (data : D) (now : Time) :
    CacheItem K D F :=
  { key := key
    lifeSpan := lifeSpan
    createdOn := now
    accessedOn := now
    accessCount := 0
    aboutToExpire := []
    data := data }

namespace CacheItem

/-- `item.KeepAlive()`, with `now` the value of `time.Now()`;
`item.accessCount++` is `int64` addition. -/
def KeepAlive (item : CacheItem K D F) (now : Time) : CacheItem K D F :=
  { item with
    accessedOn := now
    accessCount := wrapInt64 (item.accessCount + 1) }

/-- `item.LifeSpan()`. -/
def LifeSpan (item : CacheItem K D F) : Duration := item.lifeSpan

/-- `item.AccessedOn()`. -/
def AccessedOn (item : CacheItem K D F) : Time := item.accessedOn

/-- `item.CreatedOn()`. -/
def CreatedOn (item : CacheItem K D F) : Time := item.createdOn

/-- `item.AccessCount()`. -/
def AccessCount (item : CacheItem K D F) : Int := item.accessCount

/-- `item.Key()`. -/
def Key (item : CacheItem K D F) : K := item.key

/-- `item.Data()`. -/
def Data (item : CacheItem K D F) : D := item.data

/-- `item.RemoveAboutToExpireCallback()`. -/
def RemoveAboutToExpireCallback (item : CacheItem K D F) : CacheItem K D F :=
  { item with aboutToExpire := [] }

/-- `item.AddAboutToExpireCallback(f)`. -/
def AddAboutToExpireCallback (item : CacheItem K D F) (f : F) : CacheItem K D F :=
  { item with aboutToExpire := item.aboutToExpire ++ [f] }

/-- `item.SetAboutToExpireCallback(f)`: the length check, the conditional
call of `RemoveAboutToExpireCallback`, then the append. -/
def SetAboutToExpireCallback (item : CacheItem K D F) (f : F) : CacheItem K D F :=
  let item1 :=
    if item.aboutToExpire.length > 0 then item.RemoveAboutToExpireCallback else item
  { item1 with aboutToExpire := item1.aboutToExpire ++ [f] }

end CacheItem

/-- One call on an item: the four mutating methods of cacheitem.go. A
`keepAlive` carries the clock reading it takes. -/
inductive ItemOp (F : Type) where
  | keepAlive (now : Time)
  | setCallback (f : F)
  | addCallback (f : F)
  | removeCallback

namespace ItemOp

/-- Effect of one call. -/
def apply (item : CacheItem K D F) : ItemOp F → CacheItem K D F
  | keepAlive now => item.KeepAlive now
  | setCallback f => item.SetAboutToExpireCallback f
  | addCallback f => item.AddAboutToExpireCallback f
  | removeCallback => item.RemoveAboutToExpireCallback

/-- Effect of a finite sequence of calls, first call first. -/
def run (item : CacheItem K D F) (ops : List (ItemOp F)) : CacheItem K D F :=
  ops.foldl apply item

/-- Whether the call is a `KeepAlive`. -/
def isKeepAlive : ItemOp F → Bool
  | keepAlive _ => true
  | _ => false

/-- Number of `KeepAlive` calls in a sequence. -/
def touches (ops : List (ItemOp F)) : Nat := ops.countP isKeepAlive

/-- The clock readings taken by a sequence of calls, in order. -/
def readings : List (ItemOp F) → List Time
  | [] => []
  | keepAlive now :: ops => now :: readings ops
  | _ :: ops => readings ops

end ItemOp

/-! ## cache.go -/

/-- State of a table's expiration scheduler. -/
inductive CleanupState where
  | idle
  | armed (deadline : Time)
  deriving DecidableEq, Repr

/-- Modelled from the spec: the struct `CacheTable`, whose declaration
(cachetable.go) is not among the source files. The fields are those of the
spec's data model for a Table: `name`, the entry map (named `items` in
cache.go), the two table-level callback chains and the scheduler state.
`G` stands for the table-level handler type. -/
structure CacheTable (K D F G : Type) where
  name : String
  items : List (K × CacheItem K D F)
  addedCallbacks : List G
  removedCallbacks : List G
  cleanupState : CleanupState

/-- A `*CacheTable`: the index of the table in the allocation heap. -/
abbrev TablePtr := Nat

/-- Go map `map[string]*CacheTable` as an association list with unique use of
the first binding of a key. -/
abbrev TableMap := List (String × TablePtr)

/-- Read `m[k]`: `some t` when present (`ok` true), `none` otherwise. -/
def TableMap.get (m : TableMap) (k : String) : Option TablePtr :=
  match m with
  | [] => none
  | (k1, v) :: rest => if k1 = k then some v else TableMap.get rest k

/-- Assignment `m[k] = v`. -/
def TableMap.set (m : TableMap) (k : String) (v : TablePtr) : TableMap :=
  (k, v) :: m.filter (fun p => p.1 != k)

/-- The package-level state of cache.go: the variable `cache` and the
`CacheTable` objects allocated so far (a pointer is an index in `heap`). -/
structure Registry (K D F G : Type) where
  cache : TableMap
  heap : List (CacheTable K D F G)

/-- The state at program start: `cache = make(map[string]*CacheTable)`. -/
def Registry.init : Registry K D F G := { cache := [], heap := [] }

/-- Dereference a table pointer. -/
def Registry.deref (s : Registry K D F G) (t : TablePtr) : Option (CacheTable K D F G) :=
  s.heap.get? t

/-- The read-locked lookup of `Cache`: `t, ok := cache[table]`. -/
def Cache.lookup (s : Registry K D F G) (table : String) : Option TablePtr :=
  s.cache.get table

/-- The write-locked section of `Cache`: the second lookup and, when the
table is still missing, the allocation and registration of an empty table. -/
def Cache.lockedCreate (s : Registry K D F G) (table : String) :
    TablePtr × Registry K D F G :=
  match s.cache.get table with
  | some t => (t, s)
  | none =>
    let t : TablePtr := s.heap.length
    (t, { cache := s.cache.set table t
          heap := s.heap ++ [{ name := table
                               items := []
                               addedCallbacks := []
                               removedCallbacks := []
                               cleanupState := CleanupState.idle }] })

/-- `Cache(table)` run alone: returns the pointer and the state it leaves. -/
def Cache (s : Registry K D F G) (table : String) : TablePtr × Registry K D F G :=
  match Cache.lookup s table with
  | some t => (t, s)
  | none => Cache.lockedCreate s table

/-- A sequence of `Cache` calls, first call first: the final state. -/
def Cache.runAll (s : Registry K D F G) (names : List String) : Registry K D F G :=
  names.foldl (fun st n => (Cache st n).2) s

/-- The tables allocated between an earlier state and a later one. -/
def Registry.createdSince (s s1 : Registry K D F G) : List (CacheTable K D F G) :=
  s1.heap.drop s.heap.length

/-- An item whose access counter holds the largest `int64`. -/
def saturatedItem : CacheItem String String Nat :=
  { key := "k"
    data := "v"
    lifeSpan := 0
    createdOn := 0
    accessedOn := 0
    accessCount := maxInt64
    aboutToExpire := [] }

/-- A registry holding one table, named "a". -/
def sampleRegistry : Registry String String Nat Nat :=
  (Cache Registry.init "a").2

/-! ## Derived notions used by the properties -/

/-- Modelled from the spec: the idle deadline of an entry, the instant
`accessedOn + lifeSpan` at which the scheduler of cachetable.go (not among
the source files) lets the entry expire. -/
def CacheItem.idleDeadline (item : CacheItem K D F) : Time :=
  item.accessedOn + item.lifeSpan

/-- The six read accessors of cacheitem.go. -/
inductive ItemRead where
  | key
  | data
  | lifeSpan
  | createdOn
  | accessedOn
  | accessCount
  deriving DecidableEq, Repr

/-- The value a read accessor returns. -/
inductive ReadValue (K D : Type) where
  | ofKey (k : K)
  | ofData (d : D)
  | ofDuration (d : Duration)
  | ofTime (t : Time)
  | ofCount (n : Int)

/-- A read accessor called as a method: the value it returns and the item
state it leaves. The bodies only return a field, so the receiver is handed
back as it came. -/
def ItemRead.call (item : CacheItem K D F) : ItemRead → ReadValue K D × CacheItem K D F
  | ItemRead.key => (ReadValue.ofKey item.Key, item)
  | ItemRead.data => (ReadValue.ofData item.Data, item)
  | ItemRead.lifeSpan => (ReadValue.ofDuration item.LifeSpan, item)
  | ItemRead.createdOn => (ReadValue.ofTime item.CreatedOn, item)
  | ItemRead.accessedOn => (ReadValue.ofTime item.AccessedOn, item)
  | ItemRead.accessCount => (ReadValue.ofCount item.AccessCount, item)

/-- Every name bound in the map points at an allocated table that carries
that name. -/
def Registry.namesMatch (s : Registry K D F G) : Prop :=
  ∀ (n : String) (p : TablePtr), s.cache.get n = some p →
    ∃ tbl : CacheTable K D F G, s.deref p = some tbl ∧ tbl.name = n

/-! ## Concurrent calls of `Cache`

`mutex` makes the two critical sections of `Cache` atomic with respect to
each other: the read-locked lookup only reads `cache`, and the write-locked
section excludes every other section. A goroutine running `Cache(table)` is
therefore a sequence of at most two atomic steps, and a concurrent execution
is an interleaving of the steps of its goroutines. -/

/-- Where a goroutine stands inside `Cache`: before the read-locked lookup,
after a lookup that missed (`ok` false, waiting for `mutex.Lock()`), or
returned with a table pointer. -/
inductive GoroutinePc where
  | start
  | missed
  | returned (t : TablePtr)
  deriving DecidableEq, Repr

/-- The shared registry and the position of every goroutine (goroutines are
numbered from 0). -/
structure Concurrent (K D F G : Type) where
  reg : Registry K D F G
  pcs : Nat → GoroutinePc

/-- All goroutines are about to call `Cache` on the registry `s`. -/
def Concurrent.begin (s : Registry K D F G) : Concurrent K D F G :=
  { reg := s, pcs := fun _ => GoroutinePc.start }

/-- Goroutine `i` takes its next atomic step of `Cache(table)`: the
read-locked lookup (a hit returns at once, since the `if !ok` block is
skipped), or the write-locked section followed by the return. A goroutine
that has returned does nothing. -/
def Concurrent.step (table : String) (c : Concurrent K D F G) (i : Nat) :
    Concurrent K D F G :=
  match c.pcs i with
  | GoroutinePc.start =>
    match Cache.lookup c.reg table with
    | some t => { reg := c.reg, pcs := Function.update c.pcs i (GoroutinePc.returned t) }
    | none => { reg := c.reg, pcs := Function.update c.pcs i GoroutinePc.missed }
  | GoroutinePc.missed =>
    { reg := (Cache.lockedCreate c.reg table).2
      pcs := Function.update c.pcs i (GoroutinePc.returned (Cache.lockedCreate c.reg table).1) }
  | GoroutinePc.returned _ => c

/-- An interleaving: `schedule` lists which goroutine takes each successive
step. -/
def Concurrent.exec (table : String) (c : Concurrent K D F G) (schedule : List Nat) :
    Concurrent K D F G :=
  schedule.foldl (Concurrent.step table) c

/-- How far a goroutine has got: 0 before the lookup, 1 after a miss, 2 once
returned. -/
def GoroutinePc.rank : GoroutinePc → Nat
  | GoroutinePc.start => 0
  | GoroutinePc.missed => 1
  | GoroutinePc.returned _ => 2

/-- What holds of every interleaving of callers of `Cache(table)` started on
a registry `s` that lacks `table`: either nothing was created yet and nobody
has returned, or the shared state is the one a single `Cache(table)` leaves
on `s` and whoever has returned holds the pointer of that one call. -/
def Concurrent.raceInv (s : Registry K D F G) (table : String) (c : Concurrent K D F G) :
    Prop :=
  (c.reg = s ∧ ∀ j : Nat, c.pcs j = GoroutinePc.start ∨ c.pcs j = GoroutinePc.missed) ∨
  (c.reg = (Cache s table).2 ∧
    ∀ j : Nat, c.pcs j = GoroutinePc.start ∨ c.pcs j = GoroutinePc.missed ∨
      c.pcs j = GoroutinePc.returned (Cache s table).1)

/-! ## Lemmas on the map and the heap -/

theorem TableMap.get_filter_ne (m : TableMap) (k n : String) (h : n ≠ k) :
    TableMap.get (m.filter (fun p => p.1 != k)) n = TableMap.get m n := by
  induction m with
  | nil => rfl
  | cons p rest ih =>
    obtain ⟨k1, v⟩ := p
    by_cases hk : k1 = k
    · have hn : ¬ k1 = n := fun e => h (e.symm.trans hk)
      rw [List.filter_cons_of_neg (by simp [hk]), ih]
      simp [TableMap.get, hn]
    · rw [List.filter_cons_of_pos (by simp [hk])]
      by_cases hkn : k1 = n
      · simp [TableMap.get, hkn]
      · simp [TableMap.get, hkn, ih]

theorem TableMap.get_set (m : TableMap) (k : String) (v : TablePtr) (n : String) :
    TableMap.get (m.set k v) n = if n = k then some v else TableMap.get m n := by
  by_cases h : n = k
  · subst h
    simp [TableMap.set, TableMap.get]
  · have hk : ¬ k = n := fun e => h e.symm
    rw [TableMap.set, TableMap.get, if_neg hk, if_neg h]
    exact TableMap.get_filter_ne m k n h

theorem Cache.eq_of_registered (s : Registry K D F G) (name : String) (t : TablePtr)
    (h : s.cache.get name = some t) : Cache s name = (t, s) := by
  simp [Cache, Cache.lookup, h]

theorem Cache.eq_of_missing (s : Registry K D F G) (name : String)
    (h : s.cache.get name = none) :
    Cache s name =
      (s.heap.length,
        { cache := s.cache.set name s.heap.length
          heap := s.heap ++ [{ name := name
                               items := []
                               addedCallbacks := []
                               removedCallbacks := []
                               cleanupState := CleanupState.idle }] }) := by
  simp [Cache, Cache.lookup, Cache.lockedCreate, h]

theorem Cache.registered_after (s : Registry K D F G) (name : String) :
    (Cache s name).2.cache.get name = some (Cache s name).1 := by
  cases h : s.cache.get name with
  | some t => rw [Cache.eq_of_registered s name t h]; exact h
  | none => rw [Cache.eq_of_missing s name h]; simp [TableMap.get_set]

theorem Cache.heap_after (s : Registry K D F G) (name : String) :
    ∃ cr : List (CacheTable K D F G),
      (Cache s name).2.heap = s.heap ++ cr ∧
      (∀ n : String, n ≠ name → cr.countP (fun t => decide (t.name = n)) = 0) ∧
      cr.countP (fun t => decide (t.name = name)) ≤ 1 ∧
      (s.cache.get name ≠ none → cr = []) := by
  cases h : s.cache.get name with
  | some t =>
    refine ⟨[], ?_, ?_, ?_, ?_⟩
    · rw [Cache.eq_of_registered s name t h]; simp
    · intro n _; rfl
    · simp
    · intro _; rfl
  | none =>
    refine ⟨[{ name := name, items := [], addedCallbacks := [], removedCallbacks := [],
               cleanupState := CleanupState.idle }], ?_, ?_, ?_, ?_⟩
    · rw [Cache.eq_of_missing s name h]
    · intro n hn
      have hn2 : ¬ name = n := fun e => hn e.symm
      simp [List.countP_cons, hn2]
    · simp [List.countP_cons]
    · intro hc; exact absurd rfl hc

theorem Cache.registered_mono (s : Registry K D F G) (name n : String)
    (h : s.cache.get n ≠ none) : (Cache s name).2.cache.get n ≠ none := by
  cases hs : s.cache.get name with
  | some t => rw [Cache.eq_of_registered s name t hs]; exact h
  | none =>
    rw [Cache.eq_of_missing s name hs]
    simp only [TableMap.get_set]
    split
    · simp
    · exact h

theorem Cache.runAll_heap (names : List String) (n : String) :
    ∀ s : Registry K D F G,
      ∃ cr : List (CacheTable K D F G),
        (Cache.runAll s names).heap = s.heap ++ cr ∧
        cr.countP (fun t => decide (t.name = n)) ≤ 1 ∧
        (s.cache.get n ≠ none → cr.countP (fun t => decide (t.name = n)) = 0) := by
  induction names with
  | nil =>
    intro s
    exact ⟨[], by simp [Cache.runAll], by simp, fun _ => rfl⟩
  | cons x xs ih =>
    intro s
    obtain ⟨cr1, h1, hne, hle, hreg⟩ := Cache.heap_after s x
    obtain ⟨cr2, h2, hle2, hreg2⟩ := ih (Cache s x).2
    have hrun : Cache.runAll s (x :: xs) = Cache.runAll (Cache s x).2 xs := by
      simp [Cache.runAll]
    refine ⟨cr1 ++ cr2, ?_, ?_, ?_⟩
    · rw [hrun, h2, h1, List.append_assoc]
    · rw [List.countP_append]
      by_cases hx : n = x
      · subst hx
        have hz := hreg2 (by rw [Cache.registered_after]; simp)
        omega
      · have hz := hne n hx
        omega
    · intro hn
      rw [List.countP_append]
      have hz := hreg2 (Cache.registered_mono s x n hn)
      by_cases hx : n = x
      · subst hx
        rw [hreg hn]
        simpa using hz
      · have hz1 := hne n hx
        omega

/-! ## The registry: `Cache` -/

/-- C1: `Cache(name)` is get-or-create. When `name` is registered, the call
returns the pointer stored under `name` and leaves the whole state as it was.
When `name` is not registered, the call returns a pointer that was not
allocated before, the table behind it has `name` as its name and no items,
every table allocated before is unchanged, and the new map is the old one
with `name` bound to the returned pointer. -/
theorem C1_Cache_get_or_create (s : Registry K D F G) (name : String) :
    (∀ t : TablePtr, s.cache.get name = some t → Cache s name = (t, s)) ∧
    (s.cache.get name = none →
      s.deref (Cache s name).1 = none ∧
      (∃ tbl : CacheTable K D F G,
        (Cache s name).2.deref (Cache s name).1 = some tbl ∧
        tbl.name = name ∧ tbl.items = [] ∧
        (Cache s name).2.heap = s.heap ++ [tbl]) ∧
      (∀ n : String, (Cache s name).2.cache.get n =
        if n = name then some (Cache s name).1 else s.cache.get n)) := by
  refine ⟨fun t h => Cache.eq_of_registered s name t h, fun h => ?_⟩
  rw [Cache.eq_of_missing s name h]
  refine ⟨?_, ⟨_, ?_, rfl, rfl, rfl⟩, ?_⟩
  · simp [Registry.deref]
  · simp [Registry.deref]
  · intro n
    exact TableMap.get_set s.cache name s.heap.length n

/-- Both branches of C1 on concrete registries: on the empty registry
`Cache "a"` allocates table 0, and on the resulting registry it returns
table 0 again and changes nothing. -/
theorem C1_Cache_get_or_create_witness :
    (Cache (Registry.init : Registry String String Nat Nat) "a").1 = 0 ∧
    (Cache (Registry.init : Registry String String Nat Nat) "a").2.cache.get "a" = some 0 ∧
    Cache sampleRegistry "a" = (0, sampleRegistry) :=
  ⟨rfl,
   ((C1_Cache_get_or_create (Registry.init : Registry String String Nat Nat) "a").2 rfl).2.2 "a",
   (C1_Cache_get_or_create sampleRegistry "a").1 0 rfl⟩

/-- C2: `Cache` is idempotent per name. A second `Cache(name)` returns the
pointer the first one returned and leaves the state exactly as the first
call left it; and over any sequence of `Cache` calls from any state, at most
one of the tables allocated during the sequence has a given name. -/
theorem C2_Cache_idempotent (s : Registry K D F G) (name : String) :
    (Cache (Cache s name).2 name).1 = (Cache s name).1 ∧
    (Cache (Cache s name).2 name).2 = (Cache s name).2 ∧
    ∀ names : List String,
      (s.createdSince (Cache.runAll s names)).countP (fun t => decide (t.name = name)) ≤ 1 := by
  have h := Cache.eq_of_registered (Cache s name).2 name (Cache s name).1
    (Cache.registered_after s name)
  refine ⟨by rw [h], by rw [h], fun names => ?_⟩
  obtain ⟨cr, hcr, hle, _⟩ := Cache.runAll_heap names name s
  rw [Registry.createdSince, hcr, List.drop_left]
  exact hle

/-! ## Cache items -/

/-- C3: `NewCacheItem(key, lifeSpan, data)` evaluated at clock reading `t`
returns, for every key, every integer `lifeSpan` and every data value, an item
with `Key() = key`, `LifeSpan() = lifeSpan`, `Data() = data`,
`CreatedOn() = AccessedOn() = t`, `AccessCount() = 0` and an empty
`aboutToExpire` chain. The function is total. -/
theorem C3_NewCacheItem_fields (key : K) (lifeSpan : Duration) (data : D) (t : Time) :
    (NewCacheItem key lifeSpan data t : CacheItem K D F).Key = key ∧
    (NewCacheItem key lifeSpan data t : CacheItem K D F).LifeSpan = lifeSpan ∧
    (NewCacheItem key lifeSpan data t : CacheItem K D F).Data = data ∧
    (NewCacheItem key lifeSpan data t : CacheItem K D F).CreatedOn = t ∧
    (NewCacheItem key lifeSpan data t : CacheItem K D F).AccessedOn = t ∧
    (NewCacheItem key lifeSpan data t : CacheItem K D F).AccessCount = 0 ∧
    (NewCacheItem key lifeSpan data t : CacheItem K D F).aboutToExpire = [] :=
  ⟨rfl, rfl, rfl, rfl, rfl, rfl, rfl⟩

theorem wrapInt64_of_inRange (x : Int) (hlo : minInt64 ≤ x) (hhi : x ≤ maxInt64) :
    wrapInt64 x = x := by
  unfold wrapInt64
  unfold minInt64 at hlo
  unfold maxInt64 at hhi
  omega

theorem wrapInt64_succ_wrap (x : Int) (n : Nat) :
    wrapInt64 (wrapInt64 (x + 1) + (n : Int)) = wrapInt64 (x + ((n + 1 : Nat) : Int)) := by
  unfold wrapInt64
  push_cast
  omega

theorem ItemOp.run_cons (item : CacheItem K D F) (op : ItemOp F) (ops : List (ItemOp F)) :
    ItemOp.run item (op :: ops) = ItemOp.run (ItemOp.apply item op) ops := rfl

theorem ItemOp.apply_accessCount (item : CacheItem K D F) (op : ItemOp F) :
    (ItemOp.apply item op).accessCount =
      if ItemOp.isKeepAlive op then wrapInt64 (item.accessCount + 1) else item.accessCount := by
  cases op with
  | keepAlive now => rfl
  | setCallback f =>
    simp only [ItemOp.apply, CacheItem.SetAboutToExpireCallback, ItemOp.isKeepAlive]
    split <;> rfl
  | addCallback f => rfl
  | removeCallback => rfl

theorem ItemOp.run_accessCount (ops : List (ItemOp F)) :
    ∀ item : CacheItem K D F,
      (ItemOp.run item ops).accessCount =
        if ItemOp.touches ops = 0 then item.accessCount
        else wrapInt64 (item.accessCount + (ItemOp.touches ops : Int)) := by
  induction ops with
  | nil => intro item; simp [ItemOp.run, ItemOp.touches]
  | cons op ops ih =>
    intro item
    rw [ItemOp.run_cons, ih, ItemOp.apply_accessCount]
    cases hk : ItemOp.isKeepAlive op with
    | true =>
      have ht : ItemOp.touches (op :: ops) = ItemOp.touches ops + 1 := by
        simp [ItemOp.touches, List.countP_cons, hk]
      rw [ht]
      simp only [if_true, Nat.succ_ne_zero, if_false]
      split
      · next h0 => rw [h0]; simp
      · exact wrapInt64_succ_wrap item.accessCount (ItemOp.touches ops)
    | false =>
      have ht : ItemOp.touches (op :: ops) = ItemOp.touches ops := by
        simp [ItemOp.touches, List.countP_cons, hk]
      rw [ht]
      simp

theorem ItemOp.touches_replicate_keepAlive (n : Nat) (t : Time) :
    ItemOp.touches (List.replicate n (ItemOp.keepAlive t : ItemOp F)) = n := by
  induction n with
  | zero => rfl
  | succ n ih =>
    rw [List.replicate_succ]
    have h : ItemOp.touches ((ItemOp.keepAlive t : ItemOp F) :: List.replicate n (ItemOp.keepAlive t))
        = ItemOp.touches (List.replicate n (ItemOp.keepAlive t : ItemOp F)) + 1 := by
      simp [ItemOp.touches, List.countP_cons, ItemOp.isKeepAlive]
    rw [h, ih]

theorem ItemOp.apply_frame (item : CacheItem K D F) (op : ItemOp F) :
    (ItemOp.apply item op).key = item.key ∧ (ItemOp.apply item op).data = item.data ∧
    (ItemOp.apply item op).lifeSpan = item.lifeSpan ∧
    (ItemOp.apply item op).createdOn = item.createdOn := by
  cases op with
  | keepAlive now => exact ⟨rfl, rfl, rfl, rfl⟩
  | setCallback f =>
    simp only [ItemOp.apply, CacheItem.SetAboutToExpireCallback]
    split <;> exact ⟨rfl, rfl, rfl, rfl⟩
  | addCallback f => exact ⟨rfl, rfl, rfl, rfl⟩
  | removeCallback => exact ⟨rfl, rfl, rfl, rfl⟩

theorem ItemOp.run_frame (ops : List (ItemOp F)) :
    ∀ item : CacheItem K D F,
      (ItemOp.run item ops).key = item.key ∧ (ItemOp.run item ops).data = item.data ∧
      (ItemOp.run item ops).lifeSpan = item.lifeSpan ∧
      (ItemOp.run item ops).createdOn = item.createdOn := by
  induction ops with
  | nil => intro item; exact ⟨rfl, rfl, rfl, rfl⟩
  | cons op ops ih =>
    intro item
    rw [ItemOp.run_cons]
    obtain ⟨a1, a2, a3, a4⟩ := ItemOp.apply_frame item op
    obtain ⟨b1, b2, b3, b4⟩ := ih (ItemOp.apply item op)
    exact ⟨b1.trans a1, b2.trans a2, b3.trans a3, b4.trans a4⟩

/-- C4 fails as stated: on an item whose counter holds the largest `int64`,
`KeepAlive` leaves the smallest `int64`, not the previous count plus one. -/
theorem C4_KeepAlive_counterexample :
    (saturatedItem.KeepAlive 1).AccessCount = -9223372036854775808 ∧
    saturatedItem.AccessCount + 1 = 9223372036854775808 ∧
    (saturatedItem.KeepAlive 1).AccessCount ≠ saturatedItem.AccessCount + 1 := by
  decide

/-- C4, amended: for every item and every clock reading `t`, after
`KeepAlive()` at `t`, `AccessedOn()` returns `t`; when the previous
`AccessCount()` is an `int64` below the largest one, `AccessCount()` returns
the previous count plus one; when it is the largest `int64`, `AccessCount()`
returns the smallest `int64`. -/
theorem C4_KeepAlive_touch (item : CacheItem K D F) (t : Time) :
    (item.KeepAlive t).AccessedOn = t ∧
    (minInt64 ≤ item.AccessCount → item.AccessCount < maxInt64 →
      (item.KeepAlive t).AccessCount = item.AccessCount + 1) ∧
    (item.AccessCount = maxInt64 → (item.KeepAlive t).AccessCount = minInt64) := by
  refine ⟨rfl, fun hlo hhi => ?_, fun hmax => ?_⟩
  · simp only [CacheItem.AccessCount, CacheItem.KeepAlive] at *
    unfold wrapInt64
    unfold minInt64 at hlo
    unfold maxInt64 at hhi
    omega
  · simp only [CacheItem.AccessCount, CacheItem.KeepAlive] at *
    rw [hmax]
    decide

/-- The amended C4 on a fresh item touched at time 7: the count goes from 0
to 1 and the access time becomes 7. -/
theorem C4_KeepAlive_touch_witness :
    ((NewCacheItem "k" 0 "v" 3 : CacheItem String String Nat).KeepAlive 7).AccessedOn = 7 ∧
    ((NewCacheItem "k" 0 "v" 3 : CacheItem String String Nat).KeepAlive 7).AccessCount = 0 + 1 :=
  ⟨(C4_KeepAlive_touch (NewCacheItem "k" 0 "v" 3 : CacheItem String String Nat) 7).1,
   (C4_KeepAlive_touch (NewCacheItem "k" 0 "v" 3 : CacheItem String String Nat) 7).2.1
     (by decide) (by decide)⟩

theorem ItemOp.run_replicate_keepAlive (key : K) (lifeSpan : Duration) (data : D) (t u : Time)
    (n : Nat) (hn : n ≠ 0) :
    (ItemOp.run (NewCacheItem key lifeSpan data t : CacheItem K D F)
      (List.replicate n (ItemOp.keepAlive u))).AccessCount = wrapInt64 (n : Int) := by
  unfold CacheItem.AccessCount
  rw [ItemOp.run_accessCount, ItemOp.touches_replicate_keepAlive, if_neg hn]
  have h0 : (NewCacheItem key lifeSpan data t : CacheItem K D F).accessCount = 0 := rfl
  rw [h0, zero_add]

theorem wrapInt64_two_pow_63 :
    wrapInt64 ((9223372036854775808 : Nat) : Int) = -9223372036854775808 := by
  decide

/-- C5 fails as stated for N = 2^63: after that many `KeepAlive` calls on a
fresh item, `AccessCount()` returns the smallest `int64`, not N. -/
theorem C5_access_count_counterexample :
    ItemOp.touches (List.replicate 9223372036854775808 (ItemOp.keepAlive 0 : ItemOp Nat))
      = 9223372036854775808 ∧
    (ItemOp.run (NewCacheItem "k" 0 "v" 0 : CacheItem String String Nat)
      (List.replicate 9223372036854775808 (ItemOp.keepAlive 0))).AccessCount
      = -9223372036854775808 ∧
    (ItemOp.run (NewCacheItem "k" 0 "v" 0 : CacheItem String String Nat)
      (List.replicate 9223372036854775808 (ItemOp.keepAlive 0))).AccessCount
      ≠ ((9223372036854775808 : Nat) : Int) :=
  ⟨ItemOp.touches_replicate_keepAlive 9223372036854775808 0,
   (ItemOp.run_replicate_keepAlive "k" 0 "v" 0 0 9223372036854775808 (by decide)).trans
     wrapInt64_two_pow_63,
   fun h =>
     absurd
       (((ItemOp.run_replicate_keepAlive "k" 0 "v" 0 0 9223372036854775808
           (by decide)).trans wrapInt64_two_pow_63).symm.trans h)
       (by decide)⟩

/-- C5, amended: for every freshly created item and every sequence of calls
of `KeepAlive`, `SetAboutToExpireCallback`, `AddAboutToExpireCallback` and
`RemoveAboutToExpireCallback` that holds N calls of `KeepAlive`, with N at
most the largest `int64` (2^63 - 1), `AccessCount()` returns N afterwards. -/
theorem C5_access_count_after_touches (key : K) (lifeSpan : Duration) (data : D) (t : Time)
    (ops : List (ItemOp F)) (hN : (ItemOp.touches ops : Int) ≤ maxInt64) :
    (ItemOp.run (NewCacheItem key lifeSpan data t) ops).AccessCount = ItemOp.touches ops := by
  unfold CacheItem.AccessCount
  rw [ItemOp.run_accessCount]
  split
  · next h0 => rw [h0]; rfl
  · have h0 : (NewCacheItem key lifeSpan data t : CacheItem K D F).accessCount = 0 := rfl
    rw [h0, zero_add]
    exact wrapInt64_of_inRange _ (by unfold minInt64; omega) hN

/-- The amended C5 on three touches interleaved with callback calls. -/
theorem C5_access_count_after_touches_witness :
    (ItemOp.run (NewCacheItem "k" 5 "v" 0 : CacheItem String String Nat)
      [ItemOp.keepAlive 1, ItemOp.addCallback 4, ItemOp.keepAlive 2, ItemOp.setCallback 9,
       ItemOp.removeCallback, ItemOp.keepAlive 3]).AccessCount = (3 : Nat) :=
  C5_access_count_after_touches "k" 5 "v" 0
    [ItemOp.keepAlive 1, ItemOp.addCallback 4, ItemOp.keepAlive 2, ItemOp.setCallback 9,
     ItemOp.removeCallback, ItemOp.keepAlive 3] (by decide)

/-- C6: `SetAboutToExpireCallback(f)` replaces the chain. For every item,
whatever its prior chain, the chain afterwards is exactly `[f]`. -/
theorem C6_SetAboutToExpireCallback_replaces (item : CacheItem K D F) (f : F) :
    (item.SetAboutToExpireCallback f).aboutToExpire = [f] := by
  unfold CacheItem.SetAboutToExpireCallback
  split
  · rfl
  · next h =>
    have hnil : item.aboutToExpire = [] := by
      cases hl : item.aboutToExpire with
      | nil => rfl
      | cons a l => rw [hl] at h; simp at h
    simp [hnil]

/-- C7: `AddAboutToExpireCallback(f)` appends without clearing. The chain
afterwards is the prior chain followed by `f`; its length grows by one and its
first handlers are the prior chain, in order. -/
theorem C7_AddAboutToExpireCallback_appends (item : CacheItem K D F) (f : F) :
    (item.AddAboutToExpireCallback f).aboutToExpire = item.aboutToExpire ++ [f] ∧
    (item.AddAboutToExpireCallback f).aboutToExpire.length = item.aboutToExpire.length + 1 ∧
    (item.AddAboutToExpireCallback f).aboutToExpire.take item.aboutToExpire.length
      = item.aboutToExpire := by
  refine ⟨rfl, ?_, ?_⟩
  · simp [CacheItem.AddAboutToExpireCallback]
  · simp [CacheItem.AddAboutToExpireCallback]

/-- C8: `RemoveAboutToExpireCallback()` empties the chain of every item, and a
second call changes nothing. -/
theorem C8_RemoveAboutToExpireCallback_empties (item : CacheItem K D F) :
    item.RemoveAboutToExpireCallback.aboutToExpire = [] ∧
    item.RemoveAboutToExpireCallback.RemoveAboutToExpireCallback
      = item.RemoveAboutToExpireCallback :=
  ⟨rfl, rfl⟩

/-- C9: `key`, `data`, `lifeSpan` and `createdOn` never change after
construction. For an item created by `NewCacheItem(key, lifeSpan, data)` at
time `t` and every finite sequence of `KeepAlive`, `SetAboutToExpireCallback`,
`AddAboutToExpireCallback` and `RemoveAboutToExpireCallback` calls, `Key()`,
`Data()`, `LifeSpan()` and `CreatedOn()` still return `key`, `data`,
`lifeSpan` and `t`. -/
theorem C9_fields_immutable (key : K) (lifeSpan : Duration) (data : D) (t : Time)
    (ops : List (ItemOp F)) :
    (ItemOp.run (NewCacheItem key lifeSpan data t) ops).Key = key ∧
    (ItemOp.run (NewCacheItem key lifeSpan data t) ops).Data = data ∧
    (ItemOp.run (NewCacheItem key lifeSpan data t) ops).LifeSpan = lifeSpan ∧
    (ItemOp.run (NewCacheItem key lifeSpan data t) ops).CreatedOn = t :=
  ItemOp.run_frame ops (NewCacheItem key lifeSpan data t)

theorem ItemOp.run_clock (ops : List (ItemOp F)) :
    ∀ item : CacheItem K D F,
      item.createdOn ≤ item.accessedOn →
      List.Chain (fun a b : Time => a ≤ b) item.accessedOn (ItemOp.readings ops) →
      (ItemOp.run item ops).createdOn ≤ (ItemOp.run item ops).accessedOn := by
  induction ops with
  | nil => intro item h _; exact h
  | cons op ops ih =>
    intro item h hc
    rw [ItemOp.run_cons]
    cases op with
    | keepAlive now =>
      rw [ItemOp.readings, List.chain_cons] at hc
      exact ih (item.KeepAlive now) (le_trans h hc.1) hc.2
    | setCallback f =>
      have ha : (ItemOp.apply item (ItemOp.setCallback f)).accessedOn = item.accessedOn := by
        simp only [ItemOp.apply, CacheItem.SetAboutToExpireCallback]
        split <;> rfl
      have hcr := (ItemOp.apply_frame item (ItemOp.setCallback f)).2.2.2
      refine ih _ (by rw [ha, hcr]; exact h) ?_
      rw [ha]
      exact hc
    | addCallback f => exact ih (item.AddAboutToExpireCallback f) h hc
    | removeCallback => exact ih item.RemoveAboutToExpireCallback h hc

/-- C10: `accessedOn >= createdOn` always. For an item created by
`NewCacheItem` at time `t` and every finite sequence of `KeepAlive` and
callback-chain calls whose clock readings, starting from `t`, never go
backwards, `AccessedOn()` is not earlier than `CreatedOn()`. -/
theorem C10_accessedOn_ge_createdOn (key : K) (lifeSpan : Duration) (data : D) (t : Time)
    (ops : List (ItemOp F))
    (hclock : List.Chain (fun a b : Time => a ≤ b) t (ItemOp.readings ops)) :
    (ItemOp.run (NewCacheItem key lifeSpan data t) ops).CreatedOn ≤
      (ItemOp.run (NewCacheItem key lifeSpan data t) ops).AccessedOn :=
  ItemOp.run_clock ops (NewCacheItem key lifeSpan data t) (le_refl t) hclock

/-- C10 on an item created at time 10, touched at 10, 12 and 12 with callback
calls in between: created at 10, last accessed at 12. -/
theorem C10_accessedOn_ge_createdOn_witness :
    List.Chain (fun a b : Time => a ≤ b) 10
      (ItemOp.readings [ItemOp.keepAlive 10, ItemOp.setCallback 1, ItemOp.keepAlive 12,
        ItemOp.addCallback 2, ItemOp.keepAlive 12, (ItemOp.removeCallback : ItemOp Nat)]) ∧
    (ItemOp.run (NewCacheItem "k" 5 "v" 10 : CacheItem String String Nat)
      [ItemOp.keepAlive 10, ItemOp.setCallback 1, ItemOp.keepAlive 12,
        ItemOp.addCallback 2, ItemOp.keepAlive 12, ItemOp.removeCallback]).CreatedOn ≤
    (ItemOp.run (NewCacheItem "k" 5 "v" 10 : CacheItem String String Nat)
      [ItemOp.keepAlive 10, ItemOp.setCallback 1, ItemOp.keepAlive 12,
        ItemOp.addCallback 2, ItemOp.keepAlive 12, ItemOp.removeCallback]).AccessedOn :=
  ⟨by simp [ItemOp.readings],
   C10_accessedOn_ge_createdOn "k" 5 "v" 10
     [ItemOp.keepAlive 10, ItemOp.setCallback 1, ItemOp.keepAlive 12,
       ItemOp.addCallback 2, ItemOp.keepAlive 12, ItemOp.removeCallback] (by simp [ItemOp.readings])⟩

/-! ## Counter monotonicity, registry frame and names -/

theorem ItemOp.apply_accessCount_of_not_keepAlive (item : CacheItem K D F) (op : ItemOp F)
    (h : ItemOp.isKeepAlive op = false) :
    (ItemOp.apply item op).accessCount = item.accessCount := by
  rw [ItemOp.apply_accessCount, h]
  simp

/-- C11 fails as stated: on an item whose counter holds the largest `int64`,
`KeepAlive` makes `AccessCount()` smaller, not strictly larger. -/
theorem C11_accessCount_counterexample :
    saturatedItem.AccessCount = 9223372036854775807 ∧
    (ItemOp.apply saturatedItem (ItemOp.keepAlive 1)).AccessCount = -9223372036854775808 ∧
    (ItemOp.apply saturatedItem (ItemOp.keepAlive 1)).AccessCount < saturatedItem.AccessCount := by
  decide

/-- C11, amended: with `accessCount` an `int64`, no callback-chain call
changes `AccessCount()` in any item state, and in every item state whose count
is an `int64` below the largest one (2^63 - 1), no call makes `AccessCount()`
smaller and every `KeepAlive` makes it strictly larger. -/
theorem C11_accessCount_monotone (item : CacheItem K D F) :
    (∀ op : ItemOp F, ItemOp.isKeepAlive op = false →
      (ItemOp.apply item op).AccessCount = item.AccessCount) ∧
    (minInt64 ≤ item.AccessCount → item.AccessCount < maxInt64 →
      (∀ op : ItemOp F, item.AccessCount ≤ (ItemOp.apply item op).AccessCount) ∧
      (∀ t : Time, item.AccessCount < (item.KeepAlive t).AccessCount)) := by
  refine ⟨fun op h => ItemOp.apply_accessCount_of_not_keepAlive item op h, fun hlo hhi => ?_⟩
  have hk : wrapInt64 (item.accessCount + 1) = item.accessCount + 1 := by
    simp only [CacheItem.AccessCount] at hlo hhi
    unfold wrapInt64
    unfold minInt64 at hlo
    unfold maxInt64 at hhi
    omega
  refine ⟨fun op => ?_, fun t => ?_⟩
  · simp only [CacheItem.AccessCount]
    rw [ItemOp.apply_accessCount]
    split
    · rw [hk]; omega
    · exact le_refl _
  · simp only [CacheItem.AccessCount, CacheItem.KeepAlive]
    rw [hk]; omega

/-- The amended C11 on a fresh item: a handler added leaves the count at 0, a
touch raises it above 0. -/
theorem C11_accessCount_monotone_witness :
    (ItemOp.apply (NewCacheItem "k" 0 "v" 3 : CacheItem String String Nat)
      (ItemOp.addCallback 5)).AccessCount = 0 ∧
    (0 : Int) < ((NewCacheItem "k" 0 "v" 3 : CacheItem String String Nat).KeepAlive 4).AccessCount :=
  ⟨(C11_accessCount_monotone (NewCacheItem "k" 0 "v" 3 : CacheItem String String Nat)).1
     (ItemOp.addCallback 5) rfl,
   ((C11_accessCount_monotone (NewCacheItem "k" 0 "v" 3 : CacheItem String String Nat)).2
     (by decide) (by decide)).2 4⟩

theorem Cache.get_other (s : Registry K D F G) (name n : String) (h : n ≠ name) :
    (Cache s name).2.cache.get n = s.cache.get n := by
  cases hs : s.cache.get name with
  | some t => rw [Cache.eq_of_registered s name t hs]
  | none =>
    rw [Cache.eq_of_missing s name hs]
    simp only [TableMap.get_set, if_neg h]

theorem Cache.deref_mono (s : Registry K D F G) (name : String) (p : TablePtr)
    (tbl : CacheTable K D F G) (h : s.deref p = some tbl) :
    (Cache s name).2.deref p = some tbl := by
  obtain ⟨cr, hcr, _⟩ := Cache.heap_after s name
  unfold Registry.deref at *
  rw [hcr]
  have hlt : p < s.heap.length := by
    by_contra hge
    rw [List.get?_eq_none.mpr (Nat.le_of_not_lt hge)] at h
    cases h
  rw [List.get?_eq_getElem?, List.getElem?_append_left hlt, ← List.get?_eq_getElem?]
  exact h

/-- C12: the registry only grows and `Cache(name)` touches nothing but the
slot of `name`. After `Cache(name)` every name registered before is still
registered, every other name is bound to the pointer it was bound to before
(or is still unbound), and every table allocated before is unchanged. -/
theorem C12_Cache_frame (s : Registry K D F G) (name : String) :
    (∀ n : String, s.cache.get n ≠ none → (Cache s name).2.cache.get n ≠ none) ∧
    (∀ n : String, n ≠ name → (Cache s name).2.cache.get n = s.cache.get n) ∧
    (∀ (p : TablePtr) (tbl : CacheTable K D F G),
      s.deref p = some tbl → (Cache s name).2.deref p = some tbl) :=
  ⟨fun n h => Cache.registered_mono s name n h,
   fun n h => Cache.get_other s name n h,
   fun p tbl h => Cache.deref_mono s name p tbl h⟩

/-- C12 on the registry holding "a" when "b" is requested: "a" keeps pointer 0
and its table, and is still registered. -/
theorem C12_Cache_frame_witness :
    (Cache sampleRegistry "b").2.cache.get "a" ≠ none ∧
    (Cache sampleRegistry "b").2.cache.get "a" = sampleRegistry.cache.get "a" ∧
    (Cache sampleRegistry "b").2.deref 0 = sampleRegistry.deref 0 :=
  ⟨(C12_Cache_frame sampleRegistry "b").1 "a" (by decide),
   (C12_Cache_frame sampleRegistry "b").2.1 "a" (by decide),
   (C12_Cache_frame sampleRegistry "b").2.2 0
     { name := "a", items := [], addedCallbacks := [], removedCallbacks := [],
       cleanupState := CleanupState.idle } rfl⟩

theorem Registry.namesMatch_init : (Registry.init : Registry K D F G).namesMatch := by
  intro n p h
  simp [Registry.init, TableMap.get] at h

theorem Cache.namesMatch_after (s : Registry K D F G) (name : String) (h : s.namesMatch) :
    (Cache s name).2.namesMatch := by
  cases hs : s.cache.get name with
  | some t => rw [Cache.eq_of_registered s name t hs]; exact h
  | none =>
    intro n p hn
    by_cases hnn : n = name
    · subst hnn
      rw [Cache.registered_after] at hn
      cases hn
      rw [Cache.eq_of_missing s n hs]
      exact ⟨{ name := n, items := [], addedCallbacks := [], removedCallbacks := [],
               cleanupState := CleanupState.idle }, by simp [Registry.deref], rfl⟩
    · rw [Cache.get_other s name n hnn] at hn
      obtain ⟨tbl, hd, hname⟩ := h n p hn
      exact ⟨tbl, Cache.deref_mono s name p tbl hd, hname⟩

theorem Cache.runAll_namesMatch (names : List String) :
    ∀ s : Registry K D F G, s.namesMatch → (Cache.runAll s names).namesMatch := by
  induction names with
  | nil => intro s h; exact h
  | cons x xs ih =>
    intro s h
    have hrun : Cache.runAll s (x :: xs) = Cache.runAll (Cache s x).2 xs := by
      simp [Cache.runAll]
    rw [hrun]
    exact ih _ (Cache.namesMatch_after s x h)

theorem Cache.distinct_of_namesMatch (s : Registry K D F G) (h : s.namesMatch)
    (a b : String) (hab : a ≠ b) :
    (Cache s a).1 ≠ (Cache (Cache s a).2 b).1 := by
  intro heq
  have h2 : (Cache (Cache s a).2 b).2.namesMatch :=
    Cache.namesMatch_after _ b (Cache.namesMatch_after s a h)
  have ha : (Cache (Cache s a).2 b).2.cache.get a = some (Cache s a).1 := by
    rw [Cache.get_other (Cache s a).2 b a hab]
    exact Cache.registered_after s a
  have hb : (Cache (Cache s a).2 b).2.cache.get b = some (Cache (Cache s a).2 b).1 :=
    Cache.registered_after (Cache s a).2 b
  obtain ⟨ta, hda, hna⟩ := h2 a _ ha
  obtain ⟨tb, hdb, hnb⟩ := h2 b _ hb
  rw [heq, hdb] at hda
  cases hda
  exact hab (hna.symm.trans hnb)

/-- C13: table names are unique within the registry. In every registry state
reached from the empty registry by a sequence of `Cache` calls, the table
stored under a name `n` carries the name `n`; two different registered names
are bound to different pointers whose tables have different names; and
`Cache(a)` followed by `Cache(b)`, with `a` different from `b`, return
different pointers. -/
theorem C13_table_names_unique (names : List String) :
    (∀ (n : String) (p : TablePtr),
      (Cache.runAll (Registry.init : Registry K D F G) names).cache.get n = some p →
      ∃ tbl : CacheTable K D F G,
        (Cache.runAll (Registry.init : Registry K D F G) names).deref p = some tbl ∧
        tbl.name = n) ∧
    (∀ (n1 n2 : String) (p1 p2 : TablePtr) (t1 t2 : CacheTable K D F G),
      n1 ≠ n2 →
      (Cache.runAll (Registry.init : Registry K D F G) names).cache.get n1 = some p1 →
      (Cache.runAll (Registry.init : Registry K D F G) names).cache.get n2 = some p2 →
      (Cache.runAll (Registry.init : Registry K D F G) names).deref p1 = some t1 →
      (Cache.runAll (Registry.init : Registry K D F G) names).deref p2 = some t2 →
      p1 ≠ p2 ∧ t1.name ≠ t2.name) ∧
    (∀ a b : String, a ≠ b →
      (Cache (Cache.runAll (Registry.init : Registry K D F G) names) a).1 ≠
      (Cache (Cache (Cache.runAll (Registry.init : Registry K D F G) names) a).2 b).1) := by
  have hinv := Cache.runAll_namesMatch names (Registry.init : Registry K D F G)
    Registry.namesMatch_init
  refine ⟨hinv, ?_, fun a b hab => Cache.distinct_of_namesMatch _ hinv a b hab⟩
  intro n1 n2 p1 p2 t1 t2 hne h1 h2 hd1 hd2
  obtain ⟨u1, hu1, hn1⟩ := hinv n1 p1 h1
  obtain ⟨u2, hu2, hn2⟩ := hinv n2 p2 h2
  rw [hd1] at hu1
  rw [hd2] at hu2
  cases hu1
  cases hu2
  refine ⟨fun hp => ?_, fun ht => hne (hn1.symm.trans (ht.trans hn2))⟩
  subst hp
  rw [hd1] at hd2
  cases hd2
  exact hne (hn1.symm.trans hn2)

/-- C13 after the calls `Cache("a")`, `Cache("b")`, `Cache("a")`: the table
under "b" is named "b", and on that registry `Cache("a")` and `Cache("c")`
return different pointers. -/
theorem C13_table_names_unique_witness :
    (∃ tbl : CacheTable String String Nat Nat,
      (Cache.runAll (Registry.init : Registry String String Nat Nat) ["a", "b", "a"]).deref 1
        = some tbl ∧ tbl.name = "b") ∧
    (Cache (Cache.runAll (Registry.init : Registry String String Nat Nat) ["a", "b", "a"]) "a").1 ≠
    (Cache (Cache (Cache.runAll (Registry.init : Registry String String Nat Nat)
      ["a", "b", "a"]) "a").2 "c").1 :=
  ⟨(C13_table_names_unique ["a", "b", "a"]).1 "b" 1 rfl,
   (C13_table_names_unique ["a", "b", "a"]).2.2 "a" "c" (by decide)⟩

/-! ### Interleavings of `Cache` -/

theorem Concurrent.step_start_miss (x : String) (c : Concurrent K D F G) (i : Nat)
    (hpc : c.pcs i = GoroutinePc.start) (hl : Cache.lookup c.reg x = none) :
    Concurrent.step x c i
      = { reg := c.reg, pcs := Function.update c.pcs i GoroutinePc.missed } := by
  simp [Concurrent.step, hpc, hl]

theorem Concurrent.step_start_hit (x : String) (c : Concurrent K D F G) (i : Nat)
    (t : TablePtr) (hpc : c.pcs i = GoroutinePc.start) (hl : Cache.lookup c.reg x = some t) :
    Concurrent.step x c i
      = { reg := c.reg, pcs := Function.update c.pcs i (GoroutinePc.returned t) } := by
  simp [Concurrent.step, hpc, hl]

theorem Concurrent.step_missed (x : String) (c : Concurrent K D F G) (i : Nat)
    (hpc : c.pcs i = GoroutinePc.missed) :
    Concurrent.step x c i
      = { reg := (Cache.lockedCreate c.reg x).2
          pcs := Function.update c.pcs i
            (GoroutinePc.returned (Cache.lockedCreate c.reg x).1) } := by
  simp [Concurrent.step, hpc]

theorem Concurrent.step_returned (x : String) (c : Concurrent K D F G) (i : Nat)
    (t : TablePtr) (hpc : c.pcs i = GoroutinePc.returned t) :
    Concurrent.step x c i = c := by
  simp [Concurrent.step, hpc]

theorem Cache.lockedCreate_of_missing (s : Registry K D F G) (x : String)
    (h : s.cache.get x = none) : Cache.lockedCreate s x = Cache s x := by
  simp [Cache, Cache.lookup, h]

theorem Cache.lockedCreate_after (s : Registry K D F G) (x : String) :
    Cache.lockedCreate (Cache s x).2 x = ((Cache s x).1, (Cache s x).2) := by
  simp [Cache.lockedCreate, Cache.registered_after]

theorem Concurrent.step_other (x : String) (c : Concurrent K D F G) (i j : Nat)
    (h : j ≠ i) : (Concurrent.step x c i).pcs j = c.pcs j := by
  cases hpc : c.pcs i with
  | start =>
    cases hl : Cache.lookup c.reg x with
    | none => rw [Concurrent.step_start_miss x c i hpc hl]; simp [Function.update, h]
    | some t => rw [Concurrent.step_start_hit x c i t hpc hl]; simp [Function.update, h]
  | missed => rw [Concurrent.step_missed x c i hpc]; simp [Function.update, h]
  | returned t => rw [Concurrent.step_returned x c i t hpc]

theorem Concurrent.step_rank (x : String) (c : Concurrent K D F G) (i : Nat) :
    min 2 ((c.pcs i).rank + 1) ≤ ((Concurrent.step x c i).pcs i).rank := by
  cases hpc : c.pcs i with
  | start =>
    cases hl : Cache.lookup c.reg x with
    | none => rw [Concurrent.step_start_miss x c i hpc hl]; simp [GoroutinePc.rank]
    | some t => rw [Concurrent.step_start_hit x c i t hpc hl]; simp [GoroutinePc.rank]
  | missed => rw [Concurrent.step_missed x c i hpc]; simp [GoroutinePc.rank]
  | returned t => rw [Concurrent.step_returned x c i t hpc, hpc]; simp [GoroutinePc.rank]

theorem Concurrent.exec_cons (x : String) (c : Concurrent K D F G) (i : Nat)
    (rest : List Nat) :
    Concurrent.exec x c (i :: rest) = Concurrent.exec x (Concurrent.step x c i) rest := rfl

theorem Concurrent.exec_rank (x : String) (j : Nat) (schedule : List Nat) :
    ∀ c : Concurrent K D F G,
      min 2 ((c.pcs j).rank + schedule.count j) ≤
        ((Concurrent.exec x c schedule).pcs j).rank := by
  induction schedule with
  | nil => intro c; simp [Concurrent.exec]
  | cons i rest ih =>
    intro c
    rw [Concurrent.exec_cons]
    have h := ih (Concurrent.step x c i)
    by_cases hij : i = j
    · subst hij
      have hr := Concurrent.step_rank x c i
      rw [List.count_cons_self]
      omega
    · have hji : j ≠ i := fun e => hij e.symm
      rw [Concurrent.step_other x c i j hji] at h
      rw [List.count_cons_of_ne hji]
      exact h

theorem GoroutinePc.returned_of_rank (pc : GoroutinePc) (h : 2 ≤ pc.rank) :
    ∃ t : TablePtr, pc = GoroutinePc.returned t := by
  cases pc with
  | start => simp [GoroutinePc.rank] at h
  | missed => simp [GoroutinePc.rank] at h
  | returned t => exact ⟨t, rfl⟩

theorem Concurrent.raceInv_begin (s : Registry K D F G) (x : String) :
    Concurrent.raceInv s x (Concurrent.begin s) :=
  Or.inl ⟨rfl, fun _ => Or.inl rfl⟩

theorem Concurrent.raceInv_step (s : Registry K D F G) (x : String)
    (hmiss : s.cache.get x = none) (c : Concurrent K D F G) (i : Nat)
    (h : Concurrent.raceInv s x c) : Concurrent.raceInv s x (Concurrent.step x c i) := by
  cases hpc : c.pcs i with
  | returned t => rw [Concurrent.step_returned x c i t hpc]; exact h
  | start =>
    rcases h with ⟨hreg, hp⟩ | ⟨hreg, hp⟩
    · have hl : Cache.lookup c.reg x = none := by rw [hreg]; exact hmiss
      rw [Concurrent.step_start_miss x c i hpc hl]
      refine Or.inl ⟨hreg, fun j => ?_⟩
      by_cases hj : j = i
      · subst hj; right; simp
      · simpa [Function.update, hj] using hp j
    · have hl : Cache.lookup c.reg x = some (Cache s x).1 := by
        rw [hreg]; exact Cache.registered_after s x
      rw [Concurrent.step_start_hit x c i _ hpc hl]
      refine Or.inr ⟨hreg, fun j => ?_⟩
      by_cases hj : j = i
      · subst hj; right; right; simp
      · simpa [Function.update, hj] using hp j
  | missed =>
    rw [Concurrent.step_missed x c i hpc]
    rcases h with ⟨hreg, hp⟩ | ⟨hreg, hp⟩
    · rw [hreg, Cache.lockedCreate_of_missing s x hmiss]
      refine Or.inr ⟨rfl, fun j => ?_⟩
      by_cases hj : j = i
      · subst hj; right; right; simp
      · rcases hp j with h1 | h1
        · left; simpa [Function.update, hj] using h1
        · right; left; simpa [Function.update, hj] using h1
    · rw [hreg, Cache.lockedCreate_after s x]
      refine Or.inr ⟨rfl, fun j => ?_⟩
      by_cases hj : j = i
      · subst hj; right; right; simp
      · simpa [Function.update, hj] using hp j

theorem Concurrent.raceInv_exec (s : Registry K D F G) (x : String)
    (hmiss : s.cache.get x = none) (schedule : List Nat) :
    ∀ c : Concurrent K D F G, Concurrent.raceInv s x c →
      Concurrent.raceInv s x (Concurrent.exec x c schedule) := by
  induction schedule with
  | nil => intro c h; exact h
  | cons i rest ih =>
    intro c h
    rw [Concurrent.exec_cons]
    exact ih _ (Concurrent.raceInv_step s x hmiss c i h)

theorem Cache.createdSince_of_missing (s : Registry K D F G) (x : String)
    (hmiss : s.cache.get x = none) :
    (Cache s x).1 = s.heap.length ∧
    ∃ tbl : CacheTable K D F G,
      s.createdSince (Cache s x).2 = [tbl] ∧ tbl.name = x ∧ tbl.items = [] ∧
      (Cache s x).2.deref s.heap.length = some tbl := by
  rw [Cache.eq_of_missing s x hmiss]
  refine ⟨rfl, { name := x, items := [], addedCallbacks := [], removedCallbacks := [],
                 cleanupState := CleanupState.idle }, ?_, rfl, rfl, ?_⟩
  · simp [Registry.createdSince]
  · simp [Registry.deref]

/-- C14: concurrent first access. On a registry that lacks "x", for every
interleaving of the atomic steps (read-locked lookup, write-locked re-check
and creation) of goroutines that all call `Cache("x")`: a goroutine that has
returned holds the pointer of the one new table, at most one table has been
created, and once each of the goroutines 0..N-1 has been scheduled twice all
N have returned that same pointer and, for N at least 1, exactly one table,
named "x" and empty, has been created: the shared state is the one a single
sequential `Cache("x")` leaves. -/
theorem C14_concurrent_first_access (s : Registry K D F G) (x : String) (N : Nat)
    (schedule : List Nat) (hmiss : s.cache.get x = none) :
    (∀ (i : Nat) (t : TablePtr),
      (Concurrent.exec x (Concurrent.begin s) schedule).pcs i = GoroutinePc.returned t →
      t = s.heap.length) ∧
    (s.createdSince (Concurrent.exec x (Concurrent.begin s) schedule).reg).length ≤ 1 ∧
    ((∀ i : Nat, i < N → 2 ≤ schedule.count i) →
      (∀ i : Nat, i < N →
        (Concurrent.exec x (Concurrent.begin s) schedule).pcs i
          = GoroutinePc.returned s.heap.length) ∧
      (0 < N →
        (Concurrent.exec x (Concurrent.begin s) schedule).reg = (Cache s x).2 ∧
        ∃ tbl : CacheTable K D F G,
          s.createdSince (Concurrent.exec x (Concurrent.begin s) schedule).reg = [tbl] ∧
          tbl.name = x ∧ tbl.items = [] ∧
          (Concurrent.exec x (Concurrent.begin s) schedule).reg.deref s.heap.length
            = some tbl)) := by
  have hinv := Concurrent.raceInv_exec s x hmiss schedule _ (Concurrent.raceInv_begin s x)
  obtain ⟨hptr, tbl, hcr, hname, hitems, hderef⟩ := Cache.createdSince_of_missing s x hmiss
  have hret : ∀ (i : Nat) (t : TablePtr),
      (Concurrent.exec x (Concurrent.begin s) schedule).pcs i = GoroutinePc.returned t →
      t = s.heap.length ∧
      (Concurrent.exec x (Concurrent.begin s) schedule).reg = (Cache s x).2 := by
    intro i t hi
    rcases hinv with ⟨_, hp⟩ | ⟨hreg, hp⟩
    · rcases hp i with h1 | h1 <;> rw [h1] at hi <;> cases hi
    · rcases hp i with h1 | h1 | h1
      · rw [h1] at hi; cases hi
      · rw [h1] at hi; cases hi
      · rw [h1] at hi
        cases hi
        exact ⟨hptr, hreg⟩
  have hdone : (∀ i : Nat, i < N → 2 ≤ schedule.count i) → ∀ i : Nat, i < N →
      (Concurrent.exec x (Concurrent.begin s) schedule).pcs i
        = GoroutinePc.returned s.heap.length := by
    intro hfair i hi
    have hr := Concurrent.exec_rank x i schedule (Concurrent.begin s)
    have hc := hfair i hi
    obtain ⟨t, ht⟩ := GoroutinePc.returned_of_rank
      ((Concurrent.exec x (Concurrent.begin s) schedule).pcs i) (by omega)
    rw [ht, (hret i t ht).1]
  refine ⟨fun i t hi => (hret i t hi).1, ?_, fun hfair => ⟨hdone hfair, fun hN => ?_⟩⟩
  · rcases hinv with ⟨hreg, _⟩ | ⟨hreg, _⟩
    · rw [hreg]; simp [Registry.createdSince]
    · rw [hreg, hcr]; simp
  · have hreg := (hret 0 _ (hdone hfair 0 hN)).2
    rw [hreg]
    exact ⟨rfl, tbl, hcr, hname, hitems, hderef⟩

/-- C14 on three goroutines that all miss in the lookup before any of them
takes the write lock (schedule 0, 1, 2, 2, 0, 1): all three return pointer 0
and the heap holds one table. -/
theorem C14_concurrent_first_access_witness :
    (∀ i : Nat, i < 3 →
      (Concurrent.exec "x" (Concurrent.begin (Registry.init : Registry String String Nat Nat))
        [0, 1, 2, 2, 0, 1]).pcs i = GoroutinePc.returned 0) ∧
    (Concurrent.exec "x" (Concurrent.begin (Registry.init : Registry String String Nat Nat))
        [0, 1, 2, 2, 0, 1]).reg.heap.length = 1 :=
  ⟨((C14_concurrent_first_access (Registry.init : Registry String String Nat Nat) "x" 3
      [0, 1, 2, 2, 0, 1] rfl).2.2 (by decide)).1,
   by decide⟩

/-! ### Keep-alive deadline, callback algebra, frame -/

/-- C15: `KeepAlive` keeps the item for another full `lifeSpan` period and
never shortens its life. For every item and clock reading `t` not earlier than
its current `accessedOn`, after `KeepAlive()` at `t` the idle deadline
`accessedOn + lifeSpan` equals `t + lifeSpan`, and for `lifeSpan >= 0` it is
not earlier than the deadline before the call. -/
theorem C15_KeepAlive_extends_deadline (item : CacheItem K D F) (t : Time)
    (ht : item.AccessedOn ≤ t) :
    (item.KeepAlive t).idleDeadline = t + item.LifeSpan ∧
    (0 ≤ item.LifeSpan → item.idleDeadline ≤ (item.KeepAlive t).idleDeadline) := by
  refine ⟨rfl, fun _ => ?_⟩
  have h : item.accessedOn ≤ t := ht
  show item.accessedOn + item.lifeSpan ≤ t + item.lifeSpan
  exact Int.add_le_add_right h _

/-- C15 on an item last accessed at 10 with a life span of 5, touched at 12:
the deadline moves from 15 to 17. -/
theorem C15_KeepAlive_extends_deadline_witness :
    ((NewCacheItem "k" 5 "v" 10 : CacheItem String String Nat).KeepAlive 12).idleDeadline
      = 12 + 5 ∧
    (NewCacheItem "k" 5 "v" 10 : CacheItem String String Nat).idleDeadline ≤
      ((NewCacheItem "k" 5 "v" 10 : CacheItem String String Nat).KeepAlive 12).idleDeadline :=
  ⟨(C15_KeepAlive_extends_deadline (NewCacheItem "k" 5 "v" 10 : CacheItem String String Nat) 12
      (by decide)).1,
   (C15_KeepAlive_extends_deadline (NewCacheItem "k" 5 "v" 10 : CacheItem String String Nat) 12
      (by decide)).2 (by decide)⟩

theorem CacheItem.set_eq_remove_add (item : CacheItem K D F) (f : F) :
    item.SetAboutToExpireCallback f
      = item.RemoveAboutToExpireCallback.AddAboutToExpireCallback f := by
  unfold CacheItem.SetAboutToExpireCallback
  split
  · rfl
  · next h =>
    have hnil : item.aboutToExpire = [] := by
      cases hl : item.aboutToExpire with
      | nil => rfl
      | cons a l => rw [hl] at h; simp at h
    cases item
    simp only at hnil
    subst hnil
    rfl

theorem CacheItem.remove_add (item : CacheItem K D F) (g : F) :
    (item.AddAboutToExpireCallback g).RemoveAboutToExpireCallback
      = item.RemoveAboutToExpireCallback := rfl

theorem CacheItem.remove_foldl_add (gs : List F) :
    ∀ item : CacheItem K D F,
      (gs.foldl CacheItem.AddAboutToExpireCallback item).RemoveAboutToExpireCallback
        = item.RemoveAboutToExpireCallback := by
  induction gs with
  | nil => intro item; rfl
  | cons g gs ih =>
    intro item
    rw [List.foldl_cons, ih, CacheItem.remove_add]

/-- C16: `SetAboutToExpireCallback` is clear followed by append. For every
item state and handler `f`, the state after `SetAboutToExpireCallback(f)` is
the state after `RemoveAboutToExpireCallback()` then
`AddAboutToExpireCallback(f)`, whether the prior chain is empty or not;
setting twice equals setting once; and handlers added before a set are
discarded. -/
theorem C16_Set_is_clear_then_append (item : CacheItem K D F) (f : F) :
    item.SetAboutToExpireCallback f
      = item.RemoveAboutToExpireCallback.AddAboutToExpireCallback f ∧
    (item.aboutToExpire = [] →
      item.SetAboutToExpireCallback f
        = item.RemoveAboutToExpireCallback.AddAboutToExpireCallback f) ∧
    (item.aboutToExpire ≠ [] →
      item.SetAboutToExpireCallback f
        = item.RemoveAboutToExpireCallback.AddAboutToExpireCallback f) ∧
    (item.SetAboutToExpireCallback f).SetAboutToExpireCallback f
      = item.SetAboutToExpireCallback f ∧
    (∀ gs : List F,
      (gs.foldl CacheItem.AddAboutToExpireCallback item).SetAboutToExpireCallback f
        = item.SetAboutToExpireCallback f) := by
  refine ⟨CacheItem.set_eq_remove_add item f, fun _ => CacheItem.set_eq_remove_add item f,
    fun _ => CacheItem.set_eq_remove_add item f, ?_, fun gs => ?_⟩
  · rw [CacheItem.set_eq_remove_add (item.SetAboutToExpireCallback f) f,
      CacheItem.set_eq_remove_add item f]
    rfl
  · rw [CacheItem.set_eq_remove_add, CacheItem.remove_foldl_add, ← CacheItem.set_eq_remove_add]

/-- C16 on both branches: a fresh item (empty chain) and the same item after
two handlers were added; in both cases setting handler 9 leaves the chain
`[9]`. -/
theorem C16_Set_is_clear_then_append_witness :
    ((NewCacheItem "k" 5 "v" 10 : CacheItem String String Nat).SetAboutToExpireCallback 9)
      = ((NewCacheItem "k" 5 "v" 10 : CacheItem String String Nat).RemoveAboutToExpireCallback
          ).AddAboutToExpireCallback 9 ∧
    ((([1, 2] : List Nat).foldl CacheItem.AddAboutToExpireCallback
        (NewCacheItem "k" 5 "v" 10 : CacheItem String String Nat)).SetAboutToExpireCallback 9
      ).aboutToExpire = [9] :=
  ⟨(C16_Set_is_clear_then_append (NewCacheItem "k" 5 "v" 10 : CacheItem String String Nat) 9).2.1
      rfl,
   congrArg CacheItem.aboutToExpire
     ((C16_Set_is_clear_then_append (NewCacheItem "k" 5 "v" 10 : CacheItem String String Nat)
        9).2.2.2.2 [1, 2])⟩

/-- C17: only `KeepAlive` counts as an access. For every item state,
`SetAboutToExpireCallback`, `AddAboutToExpireCallback`,
`RemoveAboutToExpireCallback` and the six read accessors leave `accessedOn`
and `accessCount` unchanged (a read accessor leaves the whole item
unchanged), and `KeepAlive` leaves the `aboutToExpire` chain unchanged. -/
theorem C17_only_KeepAlive_is_an_access (item : CacheItem K D F) :
    (∀ f : F, (item.SetAboutToExpireCallback f).AccessedOn = item.AccessedOn ∧
      (item.SetAboutToExpireCallback f).AccessCount = item.AccessCount) ∧
    (∀ f : F, (item.AddAboutToExpireCallback f).AccessedOn = item.AccessedOn ∧
      (item.AddAboutToExpireCallback f).AccessCount = item.AccessCount) ∧
    (item.RemoveAboutToExpireCallback.AccessedOn = item.AccessedOn ∧
      item.RemoveAboutToExpireCallback.AccessCount = item.AccessCount) ∧
    (∀ r : ItemRead, (ItemRead.call item r).2 = item ∧
      (ItemRead.call item r).2.AccessedOn = item.AccessedOn ∧
      (ItemRead.call item r).2.AccessCount = item.AccessCount) ∧
    (∀ t : Time, (item.KeepAlive t).aboutToExpire = item.aboutToExpire) := by
  refine ⟨fun f => ?_, fun f => ⟨rfl, rfl⟩, ⟨rfl, rfl⟩, fun r => ?_, fun t => rfl⟩
  · rw [CacheItem.set_eq_remove_add]
    exact ⟨rfl, rfl⟩
  · cases r <;> exact ⟨rfl, rfl, rfl⟩

end Cache2go
